import Mathlib

/-!
Verification of the CDT rate-aggregation engine against its specification.

This file shallowly embeds the Python sources (`scrapers/base_scraper.py`,
`scrapers/bank_scrapers.py`, `scrapers/mejorcdt_scraper.py`,
`scrapers/orchestrator.py`, `scrapers/config.py`, `api/app.py`) in Lean 4:

* Python `str` values become `String` / `List Char`; the text-normalizer
  functions are modelled character by character, including the exact order
  of `strip` / `replace` calls and the regex scans (compiled to explicit
  scanning functions with the same leftmost, non-overlapping, greedy
  semantics on the fixed patterns used by the source).
* Python floats are modelled as exact rationals `ℚ` (the API simulator,
  which uses a fractional power, is modelled over `ℝ`); `round(x, k)` is
  modelled as exact round-half-to-even at `k` decimal digits.
* `dict` insertion order (the orchestrator's `self.results`) becomes an
  association list in insertion order.
* `try`/`except` around a scraper run becomes an `Except` value.

Definitions mirror the source; theorems at the end settle the claims.
-/

/-! ## Character and list utilities (Python `str` primitives) -/

/-- The whitespace characters stripped by Python `str.strip()` (ASCII part). -/
def isPySpace (c : Char) : Bool :=
  c = ' ' || c = '\t' || c = '\n' || c = '\r' || c = '\x0b' || c = '\x0c'

@[simp] def dropWhileL (p : Char → Bool) : List Char → List Char
  | [] => []
  | c :: cs => if p c then dropWhileL p cs else c :: cs

/-- Python `str.strip()`. -/
@[simp] def pyStrip (cs : List Char) : List Char :=
  (dropWhileL isPySpace (dropWhileL isPySpace cs).reverse).reverse

/-- Python `str.replace(x, '')` for a single character `x`. -/
@[simp] def remChar (x : Char) : List Char → List Char
  | [] => []
  | c :: cs => if c = x then remChar x cs else c :: remChar x cs

/-- Python `str.replace(a, b)` for single characters. -/
@[simp] def swapChar (a b : Char) : List Char → List Char
  | [] => []
  | c :: cs => (if c = a then b else c) :: swapChar a b cs

/-- ASCII lower-casing, as applied by Python `str.lower()` to the ASCII
letters that all keyword tests in the source rely on. -/
def charLower (c : Char) : Char :=
  if 'A' ≤ c ∧ c ≤ 'Z' then Char.ofNat (c.toNat + 32) else c

@[simp] def toLowerL : List Char → List Char
  | [] => []
  | c :: cs => charLower c :: toLowerL cs

/-- ASCII upper-casing (Python `str.upper()` on the ASCII range). -/
def charUpper (c : Char) : Char :=
  if 'a' ≤ c ∧ c ≤ 'z' then Char.ofNat (c.toNat - 32) else c

@[simp] def toUpperL : List Char → List Char
  | [] => []
  | c :: cs => charUpper c :: toUpperL cs

def isPrefixL : List Char → List Char → Bool
  | [], _ => true
  | _ :: _, [] => false
  | p :: ps, c :: cs => p = c && isPrefixL ps cs

/-- Python `pat in text` (substring containment). -/
def containsSub (pat : List Char) : List Char → Bool
  | [] => isPrefixL pat []
  | c :: cs => isPrefixL pat (c :: cs) || containsSub pat cs

/-- Python `text.replace(pat, '')`: left-to-right, non-overlapping removal
of every occurrence of `pat`.  The first list argument is fuel (always the
scanned text itself at top level, which bounds the number of steps). -/
@[simp] def removeSubAux (pat : List Char) : List Char → List Char → List Char
  | _, [] => []
  | [], c :: cs => c :: cs
  | _ :: fuel, c :: cs =>
    if isPrefixL pat (c :: cs) then
      removeSubAux pat fuel (List.drop (pat.length - 1) cs)
    else c :: removeSubAux pat fuel cs

@[simp] def removeSub (pat cs : List Char) : List Char := removeSubAux pat cs cs

/-! ## Digits, decimal parsing (model of Python `float(...)`) -/

@[simp] def spanDigits : List Char → List Char × List Char
  | [] => ([], [])
  | c :: cs =>
    if c.isDigit then ((spanDigits cs).1.cons c, (spanDigits cs).2)
    else ([], c :: cs)

def digitVal (c : Char) : ℕ := c.toNat - 48

@[simp] lemma digitVal_zero : digitVal '0' = 0 := rfl
@[simp] lemma digitVal_one : digitVal '1' = 1 := rfl
@[simp] lemma digitVal_two : digitVal '2' = 2 := rfl
@[simp] lemma digitVal_three : digitVal '3' = 3 := rfl
@[simp] lemma digitVal_four : digitVal '4' = 4 := rfl
@[simp] lemma digitVal_five : digitVal '5' = 5 := rfl
@[simp] lemma digitVal_six : digitVal '6' = 6 := rfl
@[simp] lemma digitVal_seven : digitVal '7' = 7 := rfl
@[simp] lemma digitVal_eight : digitVal '8' = 8 := rfl
@[simp] lemma digitVal_nine : digitVal '9' = 9 := rfl

@[simp] def digitsVal (ds : List Char) : ℕ :=
  ds.foldl (fun a c => 10 * a + digitVal c) 0

@[simp] def allDigits : List Char → Bool
  | [] => true
  | c :: cs => c.isDigit && allDigits cs

/-- Model of Python `float(s)` on an unsigned plain decimal string
(`"12"`, `"12.5"`, `"12."`, `".5"`); anything else is a parse failure.
Exotic inputs accepted by `float` (exponents, `inf`, `nan`, underscores)
never arise from the normalizers' cleaned inputs and are modelled as
failures. -/
@[simp] def parseUnsignedDec (cs : List Char) : Option ℚ :=
  match spanDigits cs with
  | (ip, []) => if ip = [] then none else some (digitsVal ip : ℚ)
  | (ip, '.' :: fp) =>
    if allDigits fp ∧ (ip ≠ [] ∨ fp ≠ []) then
      some ((digitsVal ip : ℚ) + (digitsVal fp : ℚ) / 10 ^ fp.length)
    else none
  | _ => none

/-- Model of Python `float(s)` with an optional sign. -/
@[simp] def parseDecimal (cs : List Char) : Option ℚ :=
  match cs with
  | [] => none
  | c :: rest =>
    if c = '-' then (parseUnsignedDec rest).map (fun q => -q)
    else if c = '+' then parseUnsignedDec rest
    else parseUnsignedDec (c :: rest)

/-! ## Python `round(x, k)`: round half to even, exact over `ℚ` -/

/-- Round half to even to the nearest integer (banker's rounding, the
semantics of Python `round`), exact over `ℚ`. -/
def roundHalfEven (q : ℚ) : ℤ :=
  if q - (⌊q⌋ : ℚ) < 1/2 then ⌊q⌋
  else if 1/2 < q - (⌊q⌋ : ℚ) then ⌊q⌋ + 1
  else if 2 ∣ ⌊q⌋ then ⌊q⌋ else ⌊q⌋ + 1

/-- Python `round(q, 2)`. -/
def round2 (q : ℚ) : ℚ := ((roundHalfEven (q * 100) : ℤ) : ℚ) / 100

/-- Python `round(q, 4)`. -/
def round4 (q : ℚ) : ℚ := ((roundHalfEven (q * 10000) : ℤ) : ℚ) / 10000

lemma roundHalfEven_intCast (z : ℤ) : roundHalfEven (z : ℚ) = z := by
  simp [roundHalfEven]

@[simp] lemma roundHalfEven_ofNat (n : ℕ) [n.AtLeastTwo] :
    roundHalfEven (no_index (OfNat.ofNat n) : ℚ) = OfNat.ofNat n := by
  have h := roundHalfEven_intCast (OfNat.ofNat n)
  norm_num at h
  convert h using 2

@[simp] lemma roundHalfEven_zero : roundHalfEven (0 : ℚ) = 0 := by
  have h := roundHalfEven_intCast 0
  simpa using h

@[simp] lemma roundHalfEven_one : roundHalfEven (1 : ℚ) = 1 := by
  have h := roundHalfEven_intCast 1
  simpa using h

lemma roundHalfEven_ge_floor (q : ℚ) : ⌊q⌋ ≤ roundHalfEven q := by
  unfold roundHalfEven
  split_ifs <;> omega

lemma roundHalfEven_le_floor_add_one (q : ℚ) : roundHalfEven q ≤ ⌊q⌋ + 1 := by
  unfold roundHalfEven
  split_ifs <;> omega

lemma roundHalfEven_mono {x y : ℚ} (h : x ≤ y) :
    roundHalfEven x ≤ roundHalfEven y := by
  rcases lt_or_eq_of_le (Int.floor_mono h) with hf | hf
  · calc roundHalfEven x ≤ ⌊x⌋ + 1 := roundHalfEven_le_floor_add_one x
      _ ≤ ⌊y⌋ := by omega
      _ ≤ roundHalfEven y := roundHalfEven_ge_floor y
  · unfold roundHalfEven
    rw [← hf]
    have hxy : x - (⌊x⌋ : ℚ) ≤ y - (⌊x⌋ : ℚ) := by linarith
    split_ifs <;> first | omega | linarith

lemma round2_mono {x y : ℚ} (h : x ≤ y) : round2 x ≤ round2 y := by
  unfold round2
  have h1 : x * 100 ≤ y * 100 := by linarith
  have h2 := roundHalfEven_mono h1
  have h3 : ((roundHalfEven (x * 100) : ℤ) : ℚ) ≤ ((roundHalfEven (y * 100) : ℤ) : ℚ) := by
    exact_mod_cast h2
  linarith

lemma round2_mul_den (q : ℚ) : ((round2 q) * 100).den = 1 := by
  unfold round2
  have : ((roundHalfEven (q * 100) : ℤ) : ℚ) / 100 * 100 = ((roundHalfEven (q * 100) : ℤ) : ℚ) := by
    field_simp
  rw [this]
  exact Rat.den_intCast _

lemma round2_eq_self {q : ℚ} (h : (q * 100).den = 1) : round2 q = q := by
  have hq : ((q * 100).num : ℚ) = q * 100 := by
    conv_rhs => rw [← Rat.num_div_den (q * 100)]
    rw [h]
    simp
  unfold round2
  rw [show q * 100 = (((q * 100).num : ℤ) : ℚ) from hq.symm, roundHalfEven_intCast, hq]
  field_simp

/-! ## Decimal rendering (model of Python `str` on a two-decimal float) -/

def charOfDigit (d : ℕ) : Char := Char.ofNat (48 + d)

@[simp] lemma charOfDigit_zero : charOfDigit 0 = '0' := rfl
@[simp] lemma charOfDigit_one : charOfDigit 1 = '1' := rfl
@[simp] lemma charOfDigit_two : charOfDigit 2 = '2' := rfl
@[simp] lemma charOfDigit_three : charOfDigit 3 = '3' := rfl
@[simp] lemma charOfDigit_four : charOfDigit 4 = '4' := rfl
@[simp] lemma charOfDigit_five : charOfDigit 5 = '5' := rfl
@[simp] lemma charOfDigit_six : charOfDigit 6 = '6' := rfl
@[simp] lemma charOfDigit_seven : charOfDigit 7 = '7' := rfl
@[simp] lemma charOfDigit_eight : charOfDigit 8 = '8' := rfl
@[simp] lemma charOfDigit_nine : charOfDigit 9 = '9' := rfl

/-- Decimal digits of `n`, least significant first. -/
def natToCharsRev (n : ℕ) : List Char :=
  if h : n = 0 then [] else charOfDigit (n % 10) :: natToCharsRev (n / 10)
decreasing_by exact Nat.div_lt_self (Nat.pos_of_ne_zero h) (by norm_num)

/-- Decimal digits of `n`, most significant first (`"0"` for zero). -/
def natToChars (n : ℕ) : List Char :=
  if n = 0 then ['0'] else (natToCharsRev n).reverse

/-- The fractional digits printed for a two-decimal fraction `f / 100`
(`f < 100`): trailing zeros elided but at least one digit, exactly as
Python `str` prints such a float. -/
def fracChars (f : ℕ) : List Char :=
  if f = 0 then ['0']
  else if f % 10 = 0 then [charOfDigit (f / 10)]
  else [charOfDigit (f / 10), charOfDigit (f % 10)]

/-- Rendering of the nonnegative two-decimal value `n / 100` the way Python
`str` prints the corresponding float: integer part, a dot, then the
fractional digits with trailing zeros elided (but at least one digit). -/
def render2Nat (n : ℕ) : List Char :=
  natToChars (n / 100) ++ ('.' :: fracChars (n % 100))

/-- Model of Python `str(x)` for a float `x` carrying at most two decimals
(every value returned by the rate normalizer), valid for values rendered in
positional notation (|x| < 10^16, where `str` does not switch to scientific
notation). -/
def pyFloatStr2 (q : ℚ) : String :=
  if (q * 100).num < 0 then ⟨'-' :: render2Nat (q * 100).num.natAbs⟩
  else ⟨render2Nat (q * 100).num.natAbs⟩

/-! ## Round-trip lemmas: rendering a two-decimal value re-parses to itself -/

@[simp] def valRev : List Char → ℕ
  | [] => 0
  | c :: cs => digitVal c + 10 * valRev cs

lemma digitVal_charOfDigit {d : ℕ} (h : d < 10) : digitVal (charOfDigit d) = d := by
  interval_cases d <;> rfl

lemma isDigit_charOfDigit {d : ℕ} (h : d < 10) : (charOfDigit d).isDigit = true := by
  interval_cases d <;> rfl

lemma valRev_natToCharsRev (n : ℕ) : valRev (natToCharsRev n) = n := by
  induction n using Nat.strong_induction_on with
  | _ n ih =>
    rw [natToCharsRev]
    split_ifs with h
    · simp [h]
    · have hlt : n / 10 < n := Nat.div_lt_self (Nat.pos_of_ne_zero h) (by norm_num)
      have hmod : n % 10 < 10 := Nat.mod_lt n (by norm_num)
      simp only [valRev, ih (n / 10) hlt, digitVal_charOfDigit hmod]
      omega

lemma mem_natToCharsRev {c : Char} {n : ℕ} (h : c ∈ natToCharsRev n) :
    ∃ d, d < 10 ∧ c = charOfDigit d := by
  induction n using Nat.strong_induction_on with
  | _ n ih =>
    rw [natToCharsRev] at h
    split_ifs at h with h0
    · simp at h
    · rcases List.mem_cons.mp h with rfl | h
      · exact ⟨n % 10, Nat.mod_lt n (by norm_num), rfl⟩
      · exact ih (n / 10) (Nat.div_lt_self (Nat.pos_of_ne_zero h0) (by norm_num)) h

lemma digitsVal_snoc (xs : List Char) (c : Char) :
    digitsVal (xs ++ [c]) = 10 * digitsVal xs + digitVal c := by
  simp [digitsVal, List.foldl_append]

lemma digitsVal_reverse (cs : List Char) : digitsVal cs.reverse = valRev cs := by
  induction cs with
  | nil => rfl
  | cons c cs ih =>
    rw [List.reverse_cons, digitsVal_snoc, ih]
    simp [valRev]
    ring

lemma digitsVal_natToChars (n : ℕ) : digitsVal (natToChars n) = n := by
  unfold natToChars
  split_ifs with h
  · simp [h]
  · rw [digitsVal_reverse, valRev_natToCharsRev]

lemma natToChars_ne_nil (n : ℕ) : natToChars n ≠ [] := by
  unfold natToChars
  split_ifs with h
  · simp
  · have : natToCharsRev n ≠ [] := by
      rw [natToCharsRev]
      simp [h]
    simpa using this

lemma mem_natToChars {c : Char} {n : ℕ} (h : c ∈ natToChars n) :
    ∃ d, d < 10 ∧ c = charOfDigit d := by
  unfold natToChars at h
  split_ifs at h with h0
  · rcases List.mem_singleton.mp h with rfl
    exact ⟨0, by norm_num, rfl⟩
  · exact mem_natToCharsRev (List.mem_reverse.mp h)

/-- Characters that can occur in the decimal rendering of a nonnegative
two-decimal value: digits and the dot. -/
def goodChar (c : Char) : Prop := (∃ d, d < 10 ∧ c = charOfDigit d) ∨ c = '.'

lemma goodChar_props {c : Char} (h : goodChar c) :
    isPySpace c = false ∧ c ≠ '%' ∧ c ≠ ',' ∧ c ≠ ' ' ∧ c ≠ 'E' ∧ c ≠ 'e' := by
  rcases h with ⟨d, hd, rfl⟩ | rfl
  · interval_cases d <;>
      exact ⟨by decide, by decide, by decide, by decide, by decide, by decide⟩
  · exact ⟨by decide, by decide, by decide, by decide, by decide, by decide⟩

lemma mem_fracChars {c : Char} {f : ℕ} (hf : f < 100) (h : c ∈ fracChars f) :
    ∃ d, d < 10 ∧ c = charOfDigit d := by
  unfold fracChars at h
  split_ifs at h with h1 h2
  · rcases List.mem_singleton.mp h with rfl
    exact ⟨0, by norm_num, rfl⟩
  · rcases List.mem_singleton.mp h with rfl
    exact ⟨f / 10, by omega, rfl⟩
  · rcases List.mem_cons.mp h with rfl | h
    · exact ⟨f / 10, by omega, rfl⟩
    · rcases List.mem_singleton.mp h with rfl
      exact ⟨f % 10, by omega, rfl⟩

lemma mem_render2Nat_goodChar {c : Char} {n : ℕ} (h : c ∈ render2Nat n) :
    goodChar c := by
  unfold render2Nat at h
  rcases List.mem_append.mp h with h | h
  · exact Or.inl (mem_natToChars h)
  · rcases List.mem_cons.mp h with rfl | h
    · exact Or.inr rfl
    · exact Or.inl (mem_fracChars (Nat.mod_lt n (by norm_num)) h)

lemma dropWhileL_eq_self {p : Char → Bool} {cs : List Char}
    (h : ∀ c ∈ cs, p c = false) : dropWhileL p cs = cs := by
  cases cs with
  | nil => rfl
  | cons c cs => simp [dropWhileL, h c (List.mem_cons_self c cs)]

lemma pyStrip_eq_self {cs : List Char} (h : ∀ c ∈ cs, isPySpace c = false) :
    pyStrip cs = cs := by
  have h1 : dropWhileL isPySpace cs = cs := dropWhileL_eq_self h
  have h2 : dropWhileL isPySpace cs.reverse = cs.reverse :=
    dropWhileL_eq_self (fun c hc => h c (List.mem_reverse.mp hc))
  simp only [pyStrip, h1, h2, List.reverse_reverse]

lemma remChar_eq_self {x : Char} {cs : List Char} (h : ∀ c ∈ cs, c ≠ x) :
    remChar x cs = cs := by
  induction cs with
  | nil => rfl
  | cons c cs ih =>
    simp [remChar, h c (List.mem_cons_self c cs),
      ih (fun c hc => h c (List.mem_cons_of_mem _ hc))]

lemma remChar_append (x : Char) (as bs : List Char) :
    remChar x (as ++ bs) = remChar x as ++ remChar x bs := by
  induction as with
  | nil => rfl
  | cons a as ih =>
    by_cases h : a = x <;> simp [remChar, h, ih]

lemma swapChar_eq_self {a b : Char} {cs : List Char} (h : ∀ c ∈ cs, c ≠ a) :
    swapChar a b cs = cs := by
  induction cs with
  | nil => rfl
  | cons c cs ih =>
    simp [swapChar, h c (List.mem_cons_self c cs),
      ih (fun c hc => h c (List.mem_cons_of_mem _ hc))]

lemma removeSubAux_not_mem {p : Char} {ps cs : List Char} (h : p ∉ cs) :
    ∀ fuel, removeSubAux (p :: ps) fuel cs = cs := by
  induction cs with
  | nil => intro fuel; cases fuel <;> rfl
  | cons c cs ih =>
    intro fuel
    cases fuel with
    | nil => rfl
    | cons f fuel =>
      have hpc : ¬(p = c) := fun hpc => h (hpc ▸ List.mem_cons_self c cs)
      have hmem : p ∉ cs := fun hm => h (List.mem_cons_of_mem _ hm)
      simp [removeSubAux, isPrefixL, hpc, ih hmem fuel]

lemma removeSub_not_mem {p : Char} {ps cs : List Char} (h : p ∉ cs) :
    removeSub (p :: ps) cs = cs :=
  removeSubAux_not_mem h cs

lemma spanDigits_append_not_digit {ds rest : List Char} {e : Char}
    (hd : ∀ c ∈ ds, c.isDigit = true) (he : e.isDigit = false) :
    spanDigits (ds ++ e :: rest) = (ds, e :: rest) := by
  induction ds with
  | nil => simp [spanDigits, he]
  | cons c cs ih =>
    have hc := hd c (List.mem_cons_self c cs)
    have ih' := ih (fun c hc => hd c (List.mem_cons_of_mem _ hc))
    simp [spanDigits, hc, ih']

lemma charOfDigit_ne_signs {d : ℕ} (h : d < 10) :
    charOfDigit d ≠ '-' ∧ charOfDigit d ≠ '+' := by
  interval_cases d <;> exact ⟨by decide, by decide⟩

lemma fracChars_ne_nil (f : ℕ) : fracChars f ≠ [] := by
  unfold fracChars
  split_ifs <;> simp

lemma allDigits_fracChars {f : ℕ} (hf : f < 100) : allDigits (fracChars f) = true := by
  unfold fracChars
  split_ifs with h1 h2
  · decide
  · simp [isDigit_charOfDigit (show f / 10 < 10 by omega)]
  · simp [isDigit_charOfDigit (show f / 10 < 10 by omega),
      isDigit_charOfDigit (show f % 10 < 10 by omega)]

lemma fracChars_val {f : ℕ} (hf : f < 100) :
    (digitsVal (fracChars f) : ℚ) / 10 ^ (fracChars f).length = (f : ℚ) / 100 := by
  unfold fracChars
  split_ifs with h1 h2
  · subst h1; norm_num
  · have h10 : f / 10 < 10 := by omega
    have hv : digitsVal [charOfDigit (f / 10)] = f / 10 := by
      simp [digitVal_charOfDigit h10]
    rw [hv]
    have hfq : (f : ℚ) = 10 * ((f / 10 : ℕ) : ℚ) := by
      have : f = 10 * (f / 10) := by omega
      exact_mod_cast this
    rw [hfq]
    norm_num
    ring
  · have h10 : f / 10 < 10 := by omega
    have h10' : f % 10 < 10 := by omega
    have hv : digitsVal [charOfDigit (f / 10), charOfDigit (f % 10)] =
        10 * (f / 10) + f % 10 := by
      simp [digitVal_charOfDigit h10, digitVal_charOfDigit h10']
    rw [hv]
    have hfq : (f : ℚ) = ((10 * (f / 10) + f % 10 : ℕ) : ℚ) := by
      have : f = 10 * (f / 10) + f % 10 := by omega
      exact_mod_cast this
    rw [hfq]
    norm_num

lemma parseDecimal_render2Nat (m : ℕ) :
    parseDecimal (render2Nat m) = some ((m : ℚ) / 100) := by
  have hf : m % 100 < 100 := Nat.mod_lt m (by norm_num)
  have hip : ∀ c ∈ natToChars (m / 100), c.isDigit = true := by
    intro c hc
    obtain ⟨d, hd, rfl⟩ := mem_natToChars hc
    exact isDigit_charOfDigit hd
  obtain ⟨c0, cs0, hcons⟩ : ∃ c0 cs0, natToChars (m / 100) = c0 :: cs0 := by
    cases h : natToChars (m / 100) with
    | nil => exact absurd h (natToChars_ne_nil _)
    | cons a b => exact ⟨a, b, rfl⟩
  obtain ⟨d0, hd0, hc0⟩ := mem_natToChars (c := c0) (n := m / 100)
    (by rw [hcons]; exact List.mem_cons_self _ _)
  have hsigns := charOfDigit_ne_signs hd0
  have hspan : spanDigits (natToChars (m / 100) ++ ('.' :: fracChars (m % 100))) =
      (natToChars (m / 100), '.' :: fracChars (m % 100)) :=
    spanDigits_append_not_digit hip (by decide)
  unfold render2Nat
  rw [hcons] at hspan ⊢
  rw [List.cons_append]
  have hne1 : ¬(c0 = '-') := hc0 ▸ hsigns.1
  have hne2 : ¬(c0 = '+') := hc0 ▸ hsigns.2
  rw [parseDecimal]
  rw [if_neg hne1, if_neg hne2, ← List.cons_append]
  simp only [parseUnsignedDec, hspan]
  have hvalip : digitsVal (c0 :: cs0) = m / 100 := by
    rw [← hcons]; exact digitsVal_natToChars _
  rw [if_pos ⟨allDigits_fracChars hf, Or.inl (by simp)⟩, hvalip, fracChars_val hf]
  have hm : (m : ℚ) = 100 * ((m / 100 : ℕ) : ℚ) + ((m % 100 : ℕ) : ℚ) := by
    have := (Nat.div_add_mod m 100).symm
    exact_mod_cast this
  rw [hm]
  congr 1
  field_simp
  ring

/-! ## Data model (`scrapers/config.py`, `scrapers/base_scraper.py`) -/

/-- `config.BankConfig` (the fields the scraping logic reads). -/
structure BankConfig where
  name : String
  code : String
  url : String
deriving DecidableEq, Repr

/-- `config.STANDARD_TERMS`. -/
def STANDARD_TERMS : List ℕ := [30, 60, 90, 180, 360, 540, 720]

/-- `base_scraper.CDTRate` (a normalized offer). -/
structure CDTRate where
  bank_code : String
  bank_name : String
  term_days : ℕ
  rate_ea : ℚ
  min_amount : Option ℚ
  max_amount : Option ℚ
  rate_type : String
  payment_frequency : String
  investment_type : String
  special_conditions : Option String
  source_url : String
  scraped_at : String
deriving DecidableEq, Repr

/-- `base_scraper.ScrapingResult` (the outcome of one adapter run). -/
structure ScrapingResult where
  bank_code : String
  bank_name : String
  success : Bool
  rates : List CDTRate
  error_message : Option String
  scraped_at : String
  scraping_duration : ℚ
deriving DecidableEq, Repr

/-! ## Text normalizer (`BaseScraper._parse_rate/_parse_amount/_parse_term`) -/

namespace BaseScraper

/-- The cleanup chain of `BaseScraper._parse_rate`, in source order:
`strip`, drop `%`, `,`→`.`, drop spaces, then remove the literal
substrings `E.A.`, `EA`, `e.a.`. -/
def cleanRate (cs : List Char) : List Char :=
  removeSub ['e', '.', 'a', '.']
    (removeSub ['E', 'A']
      (removeSub ['E', '.', 'A', '.']
        (remChar ' ' (swapChar ',' '.' (remChar '%' (pyStrip cs))))))

/-- `BaseScraper._parse_rate`: clean the text, parse a float, treat values
`> 1` as percentages (divide by 100), return `round(rate * 100, 2)`. -/
def parse_rate (s : String) : Option ℚ :=
  if s.data = [] then none
  else
    match parseDecimal (cleanRate s.data) with
    | none => none
    | some v => some (if 1 < v then round2 (v / 100 * 100) else round2 (v * 100))

/-- `BaseScraper._parse_amount`. -/
def parse_amount (s : String) : Option ℚ :=
  if s.data = [] then none
  else
    let t := pyStrip (removeSub ['c', 'o', 'p'] (removeSub ['C', 'O', 'P']
      (remChar ',' (remChar '.' (remChar '$' (pyStrip s.data))))))
    if containsSub ['M'] (toUpperL t) then
      match parseDecimal (pyStrip (remChar 'M' (toUpperL t))) with
      | some v => some (v * 1000000)
      | none => none
    else parseDecimal t

end BaseScraper

/-! Scanners compiled from the term regexes `(\d+)\s*d[ií]as?`,
`(\d+)\s*mes(?:es)?`, `(\d+)\s*a[ñn]os?` and `(\d+)` (leftmost match,
greedy digit run, as `re.search` finds them). -/

def scanFirstNat (f : List Char → Option ℕ) : List Char → Option ℕ
  | [] => none
  | c :: cs =>
    match f (c :: cs) with
    | some n => some n
    | none => scanFirstNat f cs

def matchDiasAt (cs : List Char) : Option ℕ :=
  match spanDigits cs with
  | ([], _) => none
  | (ds, rest) =>
    match dropWhileL isPySpace rest with
    | 'd' :: x :: 'a' :: _ => if x = 'i' ∨ x = 'í' then some (digitsVal ds) else none
    | _ => none

def matchMesesAt (cs : List Char) : Option ℕ :=
  match spanDigits cs with
  | ([], _) => none
  | (ds, rest) =>
    match dropWhileL isPySpace rest with
    | 'm' :: 'e' :: 's' :: _ => some (digitsVal ds)
    | _ => none

def matchAnosAt (cs : List Char) : Option ℕ :=
  match spanDigits cs with
  | ([], _) => none
  | (ds, rest) =>
    match dropWhileL isPySpace rest with
    | 'a' :: x :: 'o' :: _ => if x = 'ñ' ∨ x = 'n' then some (digitsVal ds) else none
    | _ => none

def matchNumAt (cs : List Char) : Option ℕ :=
  match spanDigits cs with
  | ([], _) => none
  | (ds, _) => some (digitsVal ds)

/-- Shared body of the two `_parse_term` implementations: days, then
months (×30), then years (×365), then a bare number disambiguated by the
magnitude threshold `smallMax` (36 in `base_scraper`, 24 in
`mejorcdt_scraper`). -/
def parseTermCore (smallMax : ℕ) (s : String) : Option ℕ :=
  if s.data = [] then none
  else
    let t := toLowerL (pyStrip s.data)
    match scanFirstNat matchDiasAt t with
    | some n => some n
    | none =>
      match scanFirstNat matchMesesAt t with
      | some n => some (n * 30)
      | none =>
        match scanFirstNat matchAnosAt t with
        | some n => some (n * 365)
        | none =>
          match scanFirstNat matchNumAt t with
          | some n => some (if n ≤ smallMax then n * 30 else n)
          | none => none

namespace BaseScraper

/-- `BaseScraper._parse_term` (bare-number threshold 36). -/
def parse_term (s : String) : Option ℕ := parseTermCore 36 s

/-- `BaseScraper.run`: the `try`/`except` wrapper around `scrape`.  The
outcome of the body is an `Except` value; any fault is captured into a
failed `ScrapingResult`; timestamps and duration are stamped on both
branches, and on success every rate is stamped with the run timestamp. -/
def run (cfg : BankConfig) (scraped_at : String) (duration : ℚ)
    (outcome : Except String ScrapingResult) : ScrapingResult :=
  match outcome with
  | .ok result =>
    { result with
      scraped_at := scraped_at
      scraping_duration := duration
      rates := result.rates.map (fun r => { r with scraped_at := scraped_at }) }
  | .error e =>
    { bank_code := cfg.code, bank_name := cfg.name, success := false, rates := [],
      error_message := some e, scraped_at := scraped_at, scraping_duration := duration }

end BaseScraper

/-! ## Generic table scraper (`bank_scrapers.GenericTableScraper`) -/

namespace GenericTable

def rate_keywords : List String := ["tasa", "rate", "e.a", "ea", "rendimiento", "interes", "%"]
def term_keywords : List String := ["plazo", "dias", "meses", "term", "periodo", "tiempo"]
def amount_keywords : List String := ["monto", "inversion", "amount", "valor", "capital"]

def anyKw (kws : List String) (h : List Char) : Bool :=
  kws.any (fun k => containsSub k.data h)

def scanAnyB (p : List Char → Bool) : List Char → Bool
  | [] => false
  | c :: cs => p (c :: cs) || scanAnyB p cs

/-- One-position matcher for `\d+[.,]\d*\s*%` and `\d+[.,]\d*\s*e\.?a\.?`
(the two alternatives of `_is_rate_cell`, on lowercased text). -/
def matchRateCellAt (cs : List Char) : Bool :=
  match spanDigits cs with
  | ([], _) => false
  | (_, rest) =>
    match rest with
    | sep :: rest2 =>
      if sep = '.' ∨ sep = ',' then
        match dropWhileL isPySpace (dropWhileL Char.isDigit rest2) with
        | '%' :: _ => true
        | 'e' :: r5 =>
          match r5 with
          | '.' :: 'a' :: _ => true
          | 'a' :: _ => true
          | _ => false
        | _ => false
      else false
    | [] => false

/-- One-position matcher for `\d+\s*d[ií]as?` and `\d+\s*mes(es)?`
(`_is_term_cell`, on lowercased text). -/
def matchTermCellAt (cs : List Char) : Bool :=
  match spanDigits cs with
  | ([], _) => false
  | (_, rest) =>
    match dropWhileL isPySpace rest with
    | 'd' :: x :: 'a' :: _ => x = 'i' || x = 'í'
    | 'm' :: 'e' :: 's' :: _ => true
    | _ => false

/-- `GenericTableScraper._is_rate_cell`. -/
def is_rate_cell (s : String) : Bool := scanAnyB matchRateCellAt (toLowerL s.data)

/-- `GenericTableScraper._is_term_cell`. -/
def is_term_cell (s : String) : Bool := scanAnyB matchTermCellAt (toLowerL s.data)

/-- One table-like element of the fetched page: its rows of cell texts,
and the (already truncated) text of up to three ancestor levels that
`_extract_tables` inspects as context. -/
structure PageTable where
  rows : List (List String)
  context : String
deriving DecidableEq, Repr

/-- `table.get_text()`: concatenation of all cell texts. -/
def tableText (t : PageTable) : List Char :=
  t.rows.flatMap (fun row => row.flatMap (fun s => s.data))

def CDT_PAGE_KEYWORDS : List String := ["cdt", "tasa", "plazo", "inversion", "deposito"]

/-- `GenericTableScraper._extract_tables`: keep the tables whose own text
or ancestor context mentions a domain keyword (all lowercased). -/
def extract_tables (soup : List PageTable) : List PageTable :=
  soup.filter (fun t => CDT_PAGE_KEYWORDS.any (fun kw =>
    containsSub kw.data (toLowerL (tableText t)) ||
    containsSub kw.data (toLowerL t.context.data)))

/-- The header-classification loop: the *last* header containing a keyword
wins, exactly as the source loop keeps overwriting the column index. -/
def findColLastAux (kws : List String) : ℕ → Option ℕ → List (List Char) → Option ℕ
  | _, acc, [] => acc
  | i, acc, h :: hs => findColLastAux kws (i + 1) (if anyKw kws h then some i else acc) hs

def findColLast (kws : List String) (headers : List (List Char)) : Option ℕ :=
  findColLastAux kws 0 none headers

/-- The content-based fallback: the *first* cell of the second row
satisfying the predicate (the source loop `break`s). -/
def findColFirstAux (p : String → Bool) : ℕ → List String → Option ℕ
  | _, [] => none
  | i, c :: cs => if p c then some i else findColFirstAux p (i + 1) cs

def findColFirst (p : String → Bool) (cells : List String) : Option ℕ :=
  findColFirstAux p 0 cells

def getCellD : List String → ℕ → String
  | [], _ => ""
  | c :: cs, i => if i = 0 then c else getCellD cs (i - 1)

/-- `cells[col].get_text() if col is not None and col < len(cells) else ''`. -/
def getColText (cells : List String) : Option ℕ → String
  | some i => if i < cells.length then getCellD cells i else ""
  | none => ""

/-- The body of the data-row loop of `_parse_table`: rows with fewer than
two cells are skipped, and a record is emitted only when both the parsed
term and the parsed rate are truthy (non-`None` and non-zero). -/
def parse_row (cfg : BankConfig) (term_col rate_col amount_col : Option ℕ)
    (cells : List String) : Option CDTRate :=
  if cells.length < 2 then none
  else
    match BaseScraper.parse_term (getColText cells term_col),
          BaseScraper.parse_rate (getColText cells rate_col) with
    | some t, some r =>
      if t ≠ 0 ∧ r ≠ 0 then
        some { bank_code := cfg.code, bank_name := cfg.name, term_days := t, rate_ea := r,
               min_amount := BaseScraper.parse_amount (getColText cells amount_col),
               max_amount := none, rate_type := "fijo",
               payment_frequency := "vencimiento", investment_type := "CDT",
               special_conditions := none, source_url := cfg.url, scraped_at := "" }
      else none
    | _, _ => none

/-- `GenericTableScraper._parse_table`. -/
def parse_table (cfg : BankConfig) (t : PageTable) : List CDTRate :=
  match t.rows with
  | [] => []
  | header :: dataRows =>
    let headers := header.map (fun s => toLowerL (pyStrip s.data))
    let term_col0 := findColLast term_keywords headers
    let rate_col0 := findColLast rate_keywords headers
    let amount_col := findColLast amount_keywords headers
    let rate_col :=
      match rate_col0, dataRows with
      | none, row1 :: _ => findColFirst is_rate_cell row1
      | _, _ => rate_col0
    let term_col :=
      match term_col0, dataRows with
      | none, row1 :: _ => findColFirst is_term_cell row1
      | _, _ => term_col0
    dataRows.filterMap (parse_row cfg term_col rate_col amount_col)

/-- The dedup key `(bank_code, term_days, rate_ea)` used by the scrapers. -/
def dedupKey (r : CDTRate) : String × ℕ × ℚ := (r.bank_code, r.term_days, r.rate_ea)

def dedupRatesAux (seen : List (String × ℕ × ℚ)) : List CDTRate → List CDTRate
  | [] => []
  | r :: rest =>
    if dedupKey r ∈ seen then dedupRatesAux seen rest
    else r :: dedupRatesAux (dedupKey r :: seen) rest

/-- The first-seen dedup loop of `GenericTableScraper.scrape`. -/
def dedupRates (l : List CDTRate) : List CDTRate := dedupRatesAux [] l

/-- `GenericTableScraper.scrape`, with the fetched page (the parsed
`soup`, reduced to its table-like elements) passed in: `none` models a
failed fetch. -/
def scrape (cfg : BankConfig) (page : Option (List PageTable)) : ScrapingResult :=
  match page with
  | none =>
    { bank_code := cfg.code, bank_name := cfg.name, success := false, rates := [],
      error_message := some "No se pudo obtener la pagina", scraped_at := "",
      scraping_duration := 0 }
  | some soup =>
    let unique_rates := dedupRates ((extract_tables soup).flatMap (parse_table cfg))
    if unique_rates = [] then
      { bank_code := cfg.code, bank_name := cfg.name, success := false, rates := [],
        error_message := some "No se encontraron tasas", scraped_at := "",
        scraping_duration := 0 }
    else
      { bank_code := cfg.code, bank_name := cfg.name, success := true,
        rates := unique_rates, error_message := none, scraped_at := "",
        scraping_duration := 0 }

end GenericTable

/-! ## Specialized consolidator scraper (`mejorcdt_scraper.MejorCDTScraper`) -/

namespace MejorCDT

/-- `CDTRateFromMejorCDT`. -/
structure MCDTRate where
  bank_name : String
  bank_code : String
  rate_ea : ℚ
  term_days : ℕ
  min_amount : Option ℚ
  max_amount : Option ℚ
  rate_type : String
  source_url : String
  source_month : String
  scraped_at : String
deriving DecidableEq, Repr

/-- `MejorCDTScraper.BANK_CODE_MAP`, in source (insertion) order. -/
def BANK_CODE_MAP : List (String × String) :=
  [("bancolombia", "bancolombia"), ("davivienda", "davivienda"), ("bbva", "bbva"),
   ("banco de bogota", "banco_bogota"), ("banco de bogotá", "banco_bogota"),
   ("av villas", "av_villas"), ("banco popular", "popular"),
   ("banco de occidente", "occidente"), ("scotiabank colpatria", "colpatria"),
   ("colpatria", "colpatria"), ("coltefinanciera", "coltefinanciera"),
   ("serfinanza", "serfinanza"), ("ban100", "ban100"),
   ("banco finandina", "finandina"), ("finandina", "finandina"),
   ("banco pichincha", "pichincha"), ("pichincha", "pichincha"),
   ("banco falabella", "falabella"), ("falabella", "falabella"),
   ("bancoomeva", "bancoomeva"), ("gnb sudameris", "gnb_sudameris"),
   ("itau", "itau"), ("itaú", "itau"), ("banco caja social", "caja_social"),
   ("caja social", "caja_social"), ("lulo bank", "lulo_bank"),
   ("nu colombia", "nubank"), ("nubank", "nubank"), ("banco agrario", "agrario"),
   ("bancamia", "bancamia"), ("banco w", "banco_w"), ("mibanco", "mibanco"),
   ("mundo mujer", "mundo_mujer"), ("coopcentral", "coopcentral"),
   ("confiar", "confiar"), ("credifamilia", "credifamilia"),
   ("dann regional", "dann_regional")]

def findCodeAux (nl : List Char) : List (String × String) → Option String
  | [] => none
  | (k, code) :: rest =>
    if containsSub k.data nl || containsSub nl k.data then some code
    else findCodeAux nl rest

/-- `re.sub(r'[^a-z0-9]', '_', name_lower)`. -/
def slugify : List Char → List Char
  | [] => []
  | c :: cs =>
    (if ('a' ≤ c ∧ c ≤ 'z') ∨ ('0' ≤ c ∧ c ≤ '9') then c else '_') :: slugify cs

/-- `MejorCDTScraper._get_bank_code`. -/
def get_bank_code (bank_name : String) : String :=
  let nl := toLowerL (pyStrip bank_name.data)
  match findCodeAux nl BANK_CODE_MAP with
  | some code => code
  | none => ⟨slugify nl⟩

/-- `re.sub(r'[eE]\.?[aA]\.?', '', text)`: remove every (leftmost,
non-overlapping) occurrence; the first argument is fuel (the text itself
at top level). -/
def removeEAAux : List Char → List Char → List Char
  | _, [] => []
  | [], c :: cs => c :: cs
  | _ :: fuel, c :: cs =>
    if c = 'e' ∨ c = 'E' then
      match cs with
      | '.' :: a :: rest2 =>
        if a = 'a' ∨ a = 'A' then
          match rest2 with
          | '.' :: r3 => removeEAAux fuel r3
          | _ => removeEAAux fuel rest2
        else c :: removeEAAux fuel cs
      | a :: rest2 =>
        if a = 'a' ∨ a = 'A' then
          match rest2 with
          | '.' :: r3 => removeEAAux fuel r3
          | _ => removeEAAux fuel rest2
        else c :: removeEAAux fuel cs
      | [] => [c]
    else c :: removeEAAux fuel cs

def removeEA (cs : List Char) : List Char := removeEAAux cs cs

/-- `MejorCDTScraper._parse_rate`: clean, parse a float, `round(rate, 2)`
(no percentage/fraction disambiguation, unlike the base scraper). -/
def parse_rate (s : String) : Option ℚ :=
  if s.data = [] then none
  else
    match parseDecimal (removeEA (remChar ' ' (swapChar ',' '.' (remChar '%' (pyStrip s.data))))) with
    | none => none
    | some v => some (round2 v)

def keepDigits : List Char → List Char
  | [] => []
  | c :: cs => if c.isDigit then c :: keepDigits cs else keepDigits cs

def firstSomeL {α β : Type} : List α → (α → Option β) → Option β
  | [], _ => none
  | a :: r, f =>
    match f a with
    | some b => some b
    | none => firstSomeL r f

/-- One-position matcher for `(\d+(?:\.\d+)?)\s*[mM]` (value of group 1). -/
def matchMillionsAt (cs : List Char) : Option ℚ :=
  match spanDigits cs with
  | ([], _) => none
  | (ds, rest) =>
    let fr :=
      match rest with
      | '.' :: r =>
        if (spanDigits r).1 = [] then (([] : List Char), rest)
        else ((spanDigits r).1, (spanDigits r).2)
      | _ => ([], rest)
    match dropWhileL isPySpace fr.2 with
    | 'm' :: _ => some ((digitsVal ds : ℚ) + (digitsVal fr.1 : ℚ) / 10 ^ fr.1.length)
    | 'M' :: _ => some ((digitsVal ds : ℚ) + (digitsVal fr.1 : ℚ) / 10 ^ fr.1.length)
    | _ => none

def scanFirstQ (f : List Char → Option ℚ) : List Char → Option ℚ
  | [] => none
  | c :: cs =>
    match f (c :: cs) with
    | some q => some q
    | none => scanFirstQ f cs

/-- `MejorCDTScraper._parse_amount`. -/
def parse_amount (s : String) : Option ℚ :=
  if s.data = [] then none
  else
    let t := pyStrip (removeSub ['C', 'O', 'P']
      (remChar ',' (remChar '.' (remChar '$' (pyStrip s.data)))))
    match scanFirstQ matchMillionsAt t with
    | some v => some (v * 1000000)
    | none => parseDecimal (keepDigits t)

/-- `MejorCDTScraper._parse_term` (bare-number threshold 24). -/
def parse_term (s : String) : Option ℕ := parseTermCore 24 s

/-- Python `X or 360` on an optional term: `None` and `0` both fall back
to the 360-day default. -/
def or360 : Option ℕ → ℕ
  | some t => if t = 0 then 360 else t
  | none => 360

/-! ### Card strategy (`_extract_rates_from_card`) -/

/-- A card-like block: the stripped text of its nearest heading-like child
(`h2/h3/h4/strong/b`), if any, and the block's full text. -/
structure Card where
  title : Option String
  text : String
deriving Repr

/-- Greedy 1-or-2 digit candidates for `\d{1,2}`, longest first (the
regex engine's backtracking order). -/
def takeDigits2 (cs : List Char) : List (List Char × List Char) :=
  match cs with
  | a :: b :: rest =>
    if a.isDigit then
      if b.isDigit then [([a, b], rest), ([a], b :: rest)] else [([a], b :: rest)]
    else []
  | a :: rest => if a.isDigit then [([a], rest)] else []
  | [] => []

/-- Tail matcher for `\s*%?\s*[eE]\.?[aA]\.?`; returns the remainder after
the match. -/
def matchEATail (cs : List Char) : Option (List Char) :=
  let cs1 := dropWhileL isPySpace cs
  let cs2 := match cs1 with | '%' :: r => r | _ => cs1
  match dropWhileL isPySpace cs2 with
  | e :: r =>
    if e = 'e' ∨ e = 'E' then
      match r with
      | '.' :: a :: r2 =>
        if a = 'a' ∨ a = 'A' then some (match r2 with | '.' :: r3 => r3 | _ => r2)
        else none
      | a :: r2 =>
        if a = 'a' ∨ a = 'A' then some (match r2 with | '.' :: r3 => r3 | _ => r2)
        else none
      | [] => none
    else none
  | [] => none

/-- One-position matcher for `(\d{1,2}[.,]\d{1,2})\s*%?\s*[eE]\.?[aA]\.?`,
returning the captured group and the remainder after the whole match. -/
def matchCardRateAt (cs : List Char) : Option (List Char × List Char) :=
  firstSomeL (takeDigits2 cs) (fun p =>
    match p.2 with
    | sep :: rest2 =>
      if sep = '.' ∨ sep = ',' then
        firstSomeL (takeDigits2 rest2) (fun q =>
          match matchEATail q.2 with
          | some rem => some (p.1 ++ sep :: q.1, rem)
          | none => none)
      else none
    | [] => none)

/-- `re.findall` for the card rate pattern: leftmost, non-overlapping
matches, resuming after each match (first argument is fuel). -/
def findRateTokensAux : List Char → List Char → List (List Char)
  | _, [] => []
  | [], _ :: _ => []
  | _ :: fuel, c :: cs =>
    match matchCardRateAt (c :: cs) with
    | some (tok, rem) => tok :: findRateTokensAux fuel rem
    | none => findRateTokensAux fuel cs

def findRateTokens (cs : List Char) : List (List Char) := findRateTokensAux cs cs

/-- `MejorCDTScraper._extract_rates_from_card`. -/
def extract_rates_from_card (card : Card) (source_url source_month scraped_at : String) :
    List MCDTRate :=
  match card.title with
  | none => []
  | some titleText =>
    let bank_name := pyStrip titleText.data
    if bank_name.length < 3 then []
    else
      (findRateTokens card.text.data).filterMap (fun tok =>
        match parse_rate ⟨tok⟩ with
        | some rate =>
          if 1 < rate ∧ rate < 25 then
            some { bank_name := ⟨bank_name⟩, bank_code := get_bank_code ⟨bank_name⟩,
                   rate_ea := rate, term_days := 360, min_amount := none,
                   max_amount := none, rate_type := "fijo", source_url := source_url,
                   source_month := source_month, scraped_at := scraped_at }
          else none
        | none => none)

/-! ### Table strategy (`_extract_rates_from_table`) -/

def bankColKeywords : List String := ["banco", "entidad", "institucion"]
def rateColKeywords : List String := ["tasa", "rate", "e.a", "rendimiento", "%"]
def termColKeywords : List String := ["plazo", "dias", "meses", "term"]
def amountColKeywords : List String := ["monto", "inversion", "minimo"]

/-- The `if/elif` header-classification loop: each header lands in the
first matching category; a later header overwrites that category's
index. -/
def classifyColsAux : ℕ → (Option ℕ × Option ℕ × Option ℕ × Option ℕ) →
    List (List Char) → Option ℕ × Option ℕ × Option ℕ × Option ℕ
  | _, acc, [] => acc
  | i, (b, r, t, a), h :: hs =>
    classifyColsAux (i + 1)
      (if GenericTable.anyKw bankColKeywords h then (some i, r, t, a)
       else if GenericTable.anyKw rateColKeywords h then (b, some i, t, a)
       else if GenericTable.anyKw termColKeywords h then (b, r, some i, a)
       else if GenericTable.anyKw amountColKeywords h then (b, r, t, some i)
       else (b, r, t, a)) hs

def classifyCols (headers : List (List Char)) :
    Option ℕ × Option ℕ × Option ℕ × Option ℕ :=
  classifyColsAux 0 (none, none, none, none) headers

/-- Boolean search for `\d+\s*d[ií]as?` inside a header. -/
def matchDiasBoolAt (cs : List Char) : Bool :=
  match spanDigits cs with
  | ([], _) => false
  | (_, rest) =>
    match dropWhileL isPySpace rest with
    | 'd' :: x :: 'a' :: _ => x = 'i' || x = 'í'
    | _ => false

def findHeaderDias : ℕ → List (List Char) → Option ℕ
  | _, [] => none
  | i, h :: hs =>
    if GenericTable.scanAnyB matchDiasBoolAt h then some i
    else findHeaderDias (i + 1) hs

def enumAux {α : Type} : ℕ → List α → List (ℕ × α)
  | _, [] => []
  | i, a :: as => (i, a) :: enumAux (i + 1) as

/-- One cell of a data row inside `_extract_rates_from_table`: skipped if
it is the bank column; a record is emitted when the parsed rate lies in
the plausible `1 < rate < 25` band, with the term from the term column or
the column header (`or 360` fallback, default 360). -/
def cellRate (bank_name : String) (bank_col term_col amount_col : Option ℕ)
    (headers : List (List Char)) (cells : List String)
    (source_url source_month scraped_at : String) (p : ℕ × String) : Option MCDTRate :=
  if bank_col = some p.1 then none
  else
    match parse_rate ⟨pyStrip p.2.data⟩ with
    | some rate =>
      if 1 < rate ∧ rate < 25 then
        let fromHeader : ℕ :=
          if p.1 < headers.length then
            or360 (parse_term (GenericTable.getCellD (headers.map (fun h => (⟨h⟩ : String))) p.1))
          else 360
        let term_days :=
          match term_col with
          | some tc =>
            if tc < cells.length then or360 (parse_term (GenericTable.getCellD cells tc))
            else fromHeader
          | none => fromHeader
        let min_amount :=
          match amount_col with
          | some ac => if ac < cells.length then parse_amount (GenericTable.getCellD cells ac) else none
          | none => none
        some { bank_name := bank_name, bank_code := get_bank_code bank_name,
               rate_ea := rate, term_days := term_days, min_amount := min_amount,
               max_amount := none, rate_type := "fijo", source_url := source_url,
               source_month := source_month, scraped_at := scraped_at }
      else none
    | none => none

/-- The bank-name extraction at the top of each data row: the bank-column
cell when present and non-empty, else the first cell (both stripped). -/
def rowBankName (bank_col : Option ℕ) (cells : List String) : List Char :=
  let bank_name0 :=
    match bank_col with
    | some bc => if bc < cells.length then pyStrip (GenericTable.getCellD cells bc).data else []
    | none => []
  if bank_name0 = [] then pyStrip (GenericTable.getCellD cells 0).data else bank_name0

/-- One data row of `_extract_rates_from_table`. -/
def rowRates (bank_col term_col amount_col : Option ℕ) (headers : List (List Char))
    (cells : List String) (source_url source_month scraped_at : String) : List MCDTRate :=
  if cells.length < 2 then []
  else
    if (rowBankName bank_col cells).length < 3 then []
    else
      (enumAux 0 cells).filterMap
        (cellRate ⟨rowBankName bank_col cells⟩ bank_col term_col amount_col headers cells
          source_url source_month scraped_at)

/-- `MejorCDTScraper._extract_rates_from_table`. -/
def extract_rates_from_table (tbl : List (List String))
    (source_url source_month scraped_at : String) : List MCDTRate :=
  match tbl with
  | [] => []
  | header :: dataRows =>
    if dataRows = [] then []
    else
      let headers := header.map (fun s => toLowerL (pyStrip s.data))
      let cols := classifyCols headers
      let cols2 :=
        match cols.2.1 with
        | none =>
          match findHeaderDias 0 headers with
          | some i => (some ((cols.2.2.1).getD 0), some i)
          | none => (cols.2.2.1, (none : Option ℕ))
        | some rc => (cols.2.2.1, some rc)
      dataRows.flatMap (fun cells =>
        rowRates cols.1 cols2.1 cols.2.2.2 headers cells source_url source_month scraped_at)

end MejorCDT

/-! ## Orchestrator (`scrapers/orchestrator.py`) -/

namespace Orchestrator

/-- `CDTOrchestrator.get_all_rates`: concatenate the rate lists of all
*successful* results, in the insertion order of `self.results` (a dict
keyed by bank code, populated in task-completion order). -/
def get_all_rates : List (String × ScrapingResult) → List CDTRate
  | [] => []
  | p :: rest => (if p.2.success then p.2.rates else []) ++ get_all_rates rest

/-- The `statistics` block of `CDTOrchestrator.get_ranking`. -/
structure RankingStatistics where
  average_rate : ℚ
  max_rate : ℚ
  min_rate : ℚ
deriving DecidableEq, Repr

/-- The statistics computation of `get_ranking`: mean/max/min of
`rate_ea` over the merged set, each rounded to 2 decimals; all zero when
the set is empty (the `if all_rates:` guard, so no division by zero). -/
def get_ranking_statistics (all_rates : List CDTRate) : RankingStatistics :=
  match all_rates.map (fun r => r.rate_ea) with
  | [] => { average_rate := 0, max_rate := 0, min_rate := 0 }
  | x :: xs =>
    { average_rate := round2 ((x :: xs).sum / ((x :: xs).length : ℚ)),
      max_rate := round2 (xs.foldl max x),
      min_rate := round2 (xs.foldl min x) }

end Orchestrator

/-! ## Query layer (`api/app.py`) -/

namespace Api

/-- The filter phase of `get_rates` (`app.py` lines 75–82).  Each filter
is guarded by Python truthiness: a missing parameter (`none`) *or* a
zero/empty value leaves the list unfiltered. -/
def get_rates_filter (all_rates : List CDTRate) (term : Option ℕ)
    (bank : Option String) (min_rate : Option ℚ) : List CDTRate :=
  let r1 :=
    match term with
    | some t => if t ≠ 0 then all_rates.filter (fun r => decide (r.term_days = t)) else all_rates
    | none => all_rates
  let r2 :=
    match bank with
    | some b => if b ≠ "" then r1.filter (fun r => decide (r.bank_code = b)) else r1
    | none => r1
  match min_rate with
  | some m => if m ≠ 0 then r2.filter (fun r => decide (m ≤ r.rate_ea)) else r2
  | none => r2

/-- Round half to even over `ℝ` (Python `round` on the simulator's
floats, modelled exactly over the reals). -/
noncomputable def roundHalfEvenR (x : ℝ) : ℤ :=
  if x - (⌊x⌋ : ℝ) < 1/2 then ⌊x⌋
  else if 1/2 < x - (⌊x⌋ : ℝ) then ⌊x⌋ + 1
  else if 2 ∣ ⌊x⌋ then ⌊x⌋ else ⌊x⌋ + 1

noncomputable def rround2 (x : ℝ) : ℝ := ((roundHalfEvenR (x * 100) : ℤ) : ℝ) / 100

noncomputable def rround4 (x : ℝ) : ℝ := ((roundHalfEvenR (x * 10000) : ℤ) : ℝ) / 10000

/-- The `result` object returned by `simulate_cdt`. -/
structure SimulationResult where
  gross_profit : ℝ
  retention : ℝ
  net_profit : ℝ
  total : ℝ
  effective_rate : ℝ

/-- The yield computation of `app.simulate_cdt` (lines 240–263), written
from the source: `rate_decimal = rate_ea / 100`;
`rate_period = (1 + rate_decimal) ** (term_days / 365) - 1`;
`gross_profit = amount * rate_period`; `retention = gross_profit * 0.04`;
`net_profit = gross_profit - retention`; `total = amount + net_profit`;
monetary outputs rounded to 2 decimals, `effective_rate` (percent) to 4. -/
noncomputable def simulate_cdt (amount rate_ea term_days : ℝ) : SimulationResult :=
  let rate_decimal := rate_ea / 100
  let rate_period := (1 + rate_decimal) ^ (term_days / 365) - 1
  let gross_profit := amount * rate_period
  let retention := gross_profit * 0.04
  let net_profit := gross_profit - retention
  let total := amount + net_profit
  { gross_profit := rround2 gross_profit, retention := rround2 retention,
    net_profit := rround2 net_profit, total := rround2 total,
    effective_rate := rround4 (rate_period * 100) }

/-- The §6 net-yield formula, written from the specification's words (the
second definition of a refinement pair): `period_rate = (1 + R/100)^(T/365) - 1`;
`gross = P * period_rate`; `withholding = gross * 4%`; `net = gross - withholding`;
`total = P + net`; monetary outputs rounded to 2 decimals, the effective
period rate in percent to 4 decimals. -/
noncomputable def netYieldSpec (P R T : ℝ) : SimulationResult :=
  let period_rate := (1 + R / 100) ^ (T / 365) - 1
  let gross := P * period_rate
  let withholding := gross * (4 / 100)
  let net := gross - withholding
  let total := P + net
  { gross_profit := rround2 gross, retention := rround2 withholding,
    net_profit := rround2 net, total := rround2 total,
    effective_rate := rround4 (period_rate * 100) }

end Api

/-! ## Supporting lemmas about the embedded operations -/

lemma mem_get_all_rates {r : CDTRate} :
    ∀ {results : List (String × ScrapingResult)},
      r ∈ Orchestrator.get_all_rates results →
      ∃ p ∈ results, p.2.success = true ∧ r ∈ p.2.rates := by
  intro results h
  induction results with
  | nil => cases h
  | cons p rest ih =>
    rw [Orchestrator.get_all_rates] at h
    rcases List.mem_append.mp h with h | h
    · by_cases hs : p.2.success
      · exact ⟨p, List.mem_cons_self p rest, hs, by simpa [hs] using h⟩
      · simp [hs] at h
    · obtain ⟨q, hq, hqs, hqr⟩ := ih h
      exact ⟨q, List.mem_cons_of_mem _ hq, hqs, hqr⟩

lemma dedupRatesAux_key_nodup (l : List CDTRate) (seen : List (String × ℕ × ℚ)) :
    ((GenericTable.dedupRatesAux seen l).map GenericTable.dedupKey).Nodup ∧
    ∀ k ∈ (GenericTable.dedupRatesAux seen l).map GenericTable.dedupKey, k ∉ seen := by
  induction l generalizing seen with
  | nil => simp [GenericTable.dedupRatesAux]
  | cons r rest ih =>
    by_cases h : GenericTable.dedupKey r ∈ seen
    · simpa [GenericTable.dedupRatesAux, h] using ih seen
    · obtain ⟨ih1, ih2⟩ := ih (GenericTable.dedupKey r :: seen)
      simp only [GenericTable.dedupRatesAux, if_neg h, List.map_cons, List.nodup_cons]
      refine ⟨⟨fun hmem => (ih2 _ hmem) (List.mem_cons_self _ _), ih1⟩, ?_⟩
      intro k hk
      rcases List.mem_cons.mp hk with rfl | hk
      · exact h
      · exact fun hks => (ih2 k hk) (List.mem_cons_of_mem _ hks)

lemma scrape_rates_key_nodup (cfg : BankConfig) (page : Option (List GenericTable.PageTable)) :
    (((GenericTable.scrape cfg page).rates).map GenericTable.dedupKey).Nodup := by
  cases page with
  | none => simp [GenericTable.scrape]
  | some soup =>
    rw [GenericTable.scrape]
    split_ifs with h
    · simp
    · exact (dedupRatesAux_key_nodup _ _).1

lemma foldl_min_le_init (xs : List ℚ) (a : ℚ) : xs.foldl min a ≤ a := by
  induction xs generalizing a with
  | nil => exact le_refl a
  | cons x xs ih =>
    calc (x :: xs).foldl min a = xs.foldl min (min a x) := rfl
      _ ≤ min a x := ih _
      _ ≤ a := min_le_left _ _

lemma foldl_min_le_mem {xs : List ℚ} {x : ℚ} (h : x ∈ xs) (a : ℚ) :
    xs.foldl min a ≤ x := by
  induction xs generalizing a with
  | nil => cases h
  | cons y ys ih =>
    rcases List.mem_cons.mp h with rfl | h
    · calc (x :: ys).foldl min a = ys.foldl min (min a x) := rfl
        _ ≤ min a x := foldl_min_le_init _ _
        _ ≤ x := min_le_right _ _
    · exact ih h _

lemma init_le_foldl_max (xs : List ℚ) (a : ℚ) : a ≤ xs.foldl max a := by
  induction xs generalizing a with
  | nil => exact le_refl a
  | cons x xs ih =>
    calc a ≤ max a x := le_max_left _ _
      _ ≤ xs.foldl max (max a x) := ih _
      _ = (x :: xs).foldl max a := rfl

lemma mem_le_foldl_max {xs : List ℚ} {x : ℚ} (h : x ∈ xs) (a : ℚ) :
    x ≤ xs.foldl max a := by
  induction xs generalizing a with
  | nil => cases h
  | cons y ys ih =>
    rcases List.mem_cons.mp h with rfl | h
    · calc x ≤ max a x := le_max_right _ _
        _ ≤ ys.foldl max (max a x) := init_le_foldl_max _ _
        _ = (x :: ys).foldl max a := rfl
    · exact ih h _

lemma mul_length_le_sum {xs : List ℚ} {m : ℚ} (h : ∀ x ∈ xs, m ≤ x) :
    m * xs.length ≤ xs.sum := by
  induction xs with
  | nil => simp
  | cons x xs ih =>
    have hx := h x (List.mem_cons_self x xs)
    have ih' := ih fun y hy => h y (List.mem_cons_of_mem _ hy)
    rw [List.sum_cons, List.length_cons]
    push_cast
    linarith

lemma sum_le_mul_length {xs : List ℚ} {m : ℚ} (h : ∀ x ∈ xs, x ≤ m) :
    xs.sum ≤ m * xs.length := by
  induction xs with
  | nil => simp
  | cons x xs ih =>
    have hx := h x (List.mem_cons_self x xs)
    have ih' := ih fun y hy => h y (List.mem_cons_of_mem _ hy)
    rw [List.sum_cons, List.length_cons]
    push_cast
    linarith

lemma parse_rate_hundredths {s : String} {r : ℚ}
    (h : BaseScraper.parse_rate s = some r) : (r * 100).den = 1 := by
  unfold BaseScraper.parse_rate at h
  split_ifs at h
  cases hp : parseDecimal (BaseScraper.cleanRate s.data) with
  | none => rw [hp] at h; cases h
  | some v =>
    rw [hp] at h
    have hr : (if 1 < v then round2 (v / 100 * 100) else round2 (v * 100)) = r :=
      Option.some.inj h
    by_cases h1 : 1 < v
    · rw [if_pos h1] at hr; rw [← hr]; exact round2_mul_den _
    · rw [if_neg h1] at hr; rw [← hr]; exact round2_mul_den _

lemma cleanRate_render_pct (m : ℕ) :
    BaseScraper.cleanRate (render2Nat m ++ ['%']) = render2Nat m := by
  have hgood : ∀ c ∈ render2Nat m, goodChar c := fun c hc => mem_render2Nat_goodChar hc
  unfold BaseScraper.cleanRate
  have h1 : pyStrip (render2Nat m ++ ['%']) = render2Nat m ++ ['%'] := by
    apply pyStrip_eq_self
    intro c hc
    rcases List.mem_append.mp hc with h | h
    · exact (goodChar_props (hgood c h)).1
    · rcases List.mem_singleton.mp h with rfl; decide
  rw [h1]
  have h2 : remChar '%' (render2Nat m ++ ['%']) = render2Nat m := by
    rw [remChar_append, remChar_eq_self (fun c hc => (goodChar_props (hgood c hc)).2.1)]
    simp [remChar]
  rw [h2]
  rw [swapChar_eq_self (fun c hc => (goodChar_props (hgood c hc)).2.2.1)]
  rw [remChar_eq_self (fun c hc => (goodChar_props (hgood c hc)).2.2.2.1)]
  rw [removeSub_not_mem (fun hmem => (goodChar_props (hgood 'E' hmem)).2.2.2.2.1 rfl)]
  rw [removeSub_not_mem (fun hmem => (goodChar_props (hgood 'E' hmem)).2.2.2.2.1 rfl)]
  rw [removeSub_not_mem (fun hmem => (goodChar_props (hgood 'e' hmem)).2.2.2.2.2 rfl)]

/-! ## Concrete fixtures used by counterexamples and witnesses -/

def rateA : CDTRate :=
  ⟨"alpha", "Alpha Bank", 30, 5, none, none, "fijo", "vencimiento", "CDT", none, "u", ""⟩

def rateB : CDTRate :=
  ⟨"beta", "Beta Bank", 60, 7, none, none, "fijo", "vencimiento", "CDT", none, "u", ""⟩

def resultA : ScrapingResult := ⟨"alpha", "Alpha Bank", true, [rateA], none, "", 0⟩

def resultB : ScrapingResult := ⟨"beta", "Beta Bank", true, [rateB], none, "", 0⟩

/-- A syntactically well-formed result whose record list repeats one
record: the orchestrator merge passes both copies through. -/
def dupResult : ScrapingResult := ⟨"alpha", "Alpha Bank", true, [rateA, rateA], none, "", 0⟩

/-! ## Claims -/

/-- C5: for every principal, annual percentage rate and term in days, the
single-offer net-yield simulation returns exactly
`period_rate = (1 + R/100)^(T/365) - 1`, `gross = P * period_rate`,
`withholding = gross * 0.04`, `net = gross - withholding`, `total = P + net`,
with the monetary outputs rounded to 2 decimals and the effective period
rate (in percent) rounded to 4 decimals: the source computation equals the
specification formula. -/
theorem C5_simulate_matches_spec_formula (amount rate_ea term_days : ℝ) :
    Api.simulate_cdt amount rate_ea term_days = Api.netYieldSpec amount rate_ea term_days := by
  unfold Api.simulate_cdt Api.netYieldSpec
  norm_num

/-- C8: for every adapter and every fault raised inside its `scrape` body,
`run` never propagates the fault: it returns a result with `success =
false`, the fault message in the error field, an empty record list, and
the timestamp and elapsed duration are reported on the result for every
outcome (fault or success). -/
theorem C8_run_captures_faults (cfg : BankConfig) (t : String) (d : ℚ) (e : String) :
    (BaseScraper.run cfg t d (Except.error e)).success = false ∧
    (BaseScraper.run cfg t d (Except.error e)).error_message = some e ∧
    (BaseScraper.run cfg t d (Except.error e)).rates = [] ∧
    ∀ outcome, (BaseScraper.run cfg t d outcome).scraped_at = t ∧
      (BaseScraper.run cfg t d outcome).scraping_duration = d := by
  refine ⟨rfl, rfl, rfl, ?_⟩
  intro outcome
  cases outcome <;> exact ⟨rfl, rfl⟩

/-- C10: in the rate-listing query, a `term` filter of 0 or a `min_rate`
filter of 0 is treated as absent (Python truthiness): the filter phase
returns the same list as when those parameters are not supplied at all. -/
theorem C10_zero_filters_treated_as_absent (all_rates : List CDTRate) (bank : Option String) :
    Api.get_rates_filter all_rates (some 0) bank (some 0) =
      Api.get_rates_filter all_rates none bank none := by
  unfold Api.get_rates_filter
  norm_num

/-- C6: the aggregate statistics satisfy `min_rate ≤ average_rate ≤
max_rate` (for the empty set all three are zero, so the inequalities hold
there too), and the empty merged set yields exactly zero for all three
statistics, with no division fault (the division is guarded by the
non-emptiness branch). -/
theorem C6_statistics_invariant (all_rates : List CDTRate) :
    ((Orchestrator.get_ranking_statistics all_rates).min_rate ≤
        (Orchestrator.get_ranking_statistics all_rates).average_rate ∧
      (Orchestrator.get_ranking_statistics all_rates).average_rate ≤
        (Orchestrator.get_ranking_statistics all_rates).max_rate) ∧
    Orchestrator.get_ranking_statistics [] = ⟨0, 0, 0⟩ := by
  refine ⟨?_, rfl⟩
  unfold Orchestrator.get_ranking_statistics
  cases hm : all_rates.map (fun r => r.rate_ea) with
  | nil => exact ⟨le_refl _, le_refl _⟩
  | cons x xs =>
    have hlen : (0 : ℚ) < ((x :: xs).length : ℚ) := by
      rw [List.length_cons]
      push_cast
      positivity
    have hminall : ∀ y ∈ x :: xs, xs.foldl min x ≤ y := by
      intro y hy
      rcases List.mem_cons.mp hy with rfl | hy
      · exact foldl_min_le_init _ _
      · exact foldl_min_le_mem hy _
    have hmaxall : ∀ y ∈ x :: xs, y ≤ xs.foldl max x := by
      intro y hy
      rcases List.mem_cons.mp hy with rfl | hy
      · exact init_le_foldl_max _ _
      · exact mem_le_foldl_max hy _
    constructor
    · apply round2_mono
      rw [le_div_iff₀ hlen]
      exact mul_length_le_sum hminall
    · apply round2_mono
      rw [div_le_iff₀ hlen]
      exact sum_le_mul_length hmaxall

/-- C7 counterexample: the merged record order is *not* independent of the
completion order.  Two runs over the same two successful sources, whose
results arrive in opposite orders, produce differently ordered merged
lists — the merge concatenates in `results`-insertion (completion) order
and performs no sorting or grouping by source id. -/
theorem C7_counterexample :
    Orchestrator.get_all_rates [("alpha", resultA), ("beta", resultB)] ≠
      Orchestrator.get_all_rates [("beta", resultB), ("alpha", resultA)] := by
  intro h
  have h2 : (Orchestrator.get_all_rates [("alpha", resultA), ("beta", resultB)]).map
        (fun r => r.term_days) =
      (Orchestrator.get_all_rates [("beta", resultB), ("alpha", resultA)]).map
        (fun r => r.term_days) := by rw [h]
  have h3 : ¬ ((Orchestrator.get_all_rates [("alpha", resultA), ("beta", resultB)]).map
        (fun r => r.term_days) =
      (Orchestrator.get_all_rates [("beta", resultB), ("alpha", resultA)]).map
        (fun r => r.term_days)) := by decide
  exact h3 h2

/-- C7 amended: the merged *multiset* of records is independent of the
completion order — permuting the per-source results only permutes the
merged list — and the merge is a pure function of the insertion-ordered
results, so the output is deterministic for a fixed completion order; but
the merged *order* follows the completion order (see the counterexample),
since the merge concatenates without sorting or grouping by source id. -/
theorem C7_amended {res1 res2 : List (String × ScrapingResult)} (h : res1.Perm res2) :
    (Orchestrator.get_all_rates res1).Perm (Orchestrator.get_all_rates res2) := by
  induction h with
  | nil => exact List.Perm.refl _
  | cons p _ ih =>
    simpa only [Orchestrator.get_all_rates] using ih.append_left _
  | swap p q l =>
    show ((if q.2.success then q.2.rates else []) ++
        ((if p.2.success then p.2.rates else []) ++ Orchestrator.get_all_rates l)).Perm
      ((if p.2.success then p.2.rates else []) ++
        ((if q.2.success then q.2.rates else []) ++ Orchestrator.get_all_rates l))
    rw [← List.append_assoc, ← List.append_assoc]
    exact (List.perm_append_comm).append_right _
  | trans _ _ ih1 ih2 => exact ih1.trans ih2

/-- C7 amended, witness at a concrete pair of completion orders. -/
theorem C7_amended_witness :
    ([("alpha", resultA), ("beta", resultB)] :
        List (String × ScrapingResult)).Perm [("beta", resultB), ("alpha", resultA)] ∧
    (Orchestrator.get_all_rates [("alpha", resultA), ("beta", resultB)]).Perm
      (Orchestrator.get_all_rates [("beta", resultB), ("alpha", resultA)]) :=
  ⟨List.Perm.swap _ _ _, C7_amended (List.Perm.swap _ _ _)⟩

/-- C1 counterexample: the merge itself does not deduplicate.  A
successful source result whose record list contains the same record twice
passes both copies into the merged set, so two records with identical
`(source id, term_days, rate_ea)` survive the merge. -/
theorem C1_counterexample :
    ¬ ((Orchestrator.get_all_rates [("alpha", dupResult)]).map
        GenericTable.dedupKey).Nodup := by
  simp [Orchestrator.get_all_rates, dupResult]

/-- C1 amended: the merge concatenates the records of successful results
without further deduplication (see the counterexample); the merged set is
duplicate-free on `(source id, term_days, rate_ea)` provided the source
results carry pairwise distinct source ids, each result's own record list
is duplicate-free on the key, and every record carries its result's source
id — which the adapters ensure: the generic-extraction adapter
deduplicates its records on exactly this key before returning. -/
theorem C1_amended (results : List (String × ScrapingResult))
    (hcodes : (results.map (fun p => p.2.bank_code)).Nodup)
    (hnodup : ∀ p ∈ results, ((p.2.rates).map GenericTable.dedupKey).Nodup)
    (howner : ∀ p ∈ results, ∀ r ∈ p.2.rates, r.bank_code = p.2.bank_code) :
    ((Orchestrator.get_all_rates results).map GenericTable.dedupKey).Nodup ∧
    ∀ cfg page, (((GenericTable.scrape cfg page).rates).map GenericTable.dedupKey).Nodup := by
  refine ⟨?_, fun cfg page => scrape_rates_key_nodup cfg page⟩
  induction results with
  | nil => simp [Orchestrator.get_all_rates]
  | cons p rest ih =>
    rw [Orchestrator.get_all_rates, List.map_append, List.nodup_append]
    rw [List.map_cons, List.nodup_cons] at hcodes
    refine ⟨?_, ?_, ?_⟩
    · by_cases hs : p.2.success
      · simpa [hs] using hnodup p (List.mem_cons_self p rest)
      · simp [hs]
    · exact ih hcodes.2 (fun q hq => hnodup q (List.mem_cons_of_mem _ hq))
        (fun q hq => howner q (List.mem_cons_of_mem _ hq))
    · intro k hk hk2
      by_cases hs : p.2.success
      · rw [if_pos hs] at hk
        obtain ⟨r, hr, hrk⟩ := List.mem_map.mp hk
        obtain ⟨r', hr', hrk'⟩ := List.mem_map.mp hk2
        obtain ⟨q, hq, hqs, hqr⟩ := mem_get_all_rates hr'
        have e1 : r.bank_code = p.2.bank_code := howner p (List.mem_cons_self p rest) r hr
        have e2 : r'.bank_code = q.2.bank_code := howner q (List.mem_cons_of_mem _ hq) r' hqr
        have ekey : r.bank_code = r'.bank_code := by
          have : GenericTable.dedupKey r = GenericTable.dedupKey r' := by rw [hrk, hrk']
          exact congrArg Prod.fst this
        apply hcodes.1
        rw [List.mem_map]
        exact ⟨q, hq, by rw [← e2, ← ekey, e1]⟩
      · rw [if_neg hs] at hk
        cases hk

/-- C1 amended, witness: two distinct successful sources with
duplicate-free record lists merge into a duplicate-free set. -/
theorem C1_amended_witness :
    (([("alpha", resultA), ("beta", resultB)].map (fun p => p.2.bank_code)).Nodup ∧
      (∀ p ∈ [("alpha", resultA), ("beta", resultB)],
        ((p.2.rates).map GenericTable.dedupKey).Nodup) ∧
      ∀ p ∈ [("alpha", resultA), ("beta", resultB)],
        ∀ r ∈ p.2.rates, r.bank_code = p.2.bank_code) ∧
    ((Orchestrator.get_all_rates [("alpha", resultA), ("beta", resultB)]).map
      GenericTable.dedupKey).Nodup := by
  have hcodes : (([("alpha", resultA), ("beta", resultB)]).map
      (fun p => p.2.bank_code)).Nodup := by
    simp [resultA, resultB]
  have hnodup : ∀ p ∈ [("alpha", resultA), ("beta", resultB)],
      ((p.2.rates).map GenericTable.dedupKey).Nodup := by
    intro p hp
    rcases List.mem_cons.mp hp with rfl | hp
    · simp [resultA]
    · rcases List.mem_singleton.mp hp with rfl
      simp [resultB]
  have howner : ∀ p ∈ [("alpha", resultA), ("beta", resultB)],
      ∀ r ∈ p.2.rates, r.bank_code = p.2.bank_code := by
    intro p hp r hr
    rcases List.mem_cons.mp hp with rfl | hp
    · rcases List.mem_singleton.mp hr with rfl; rfl
    · rcases List.mem_singleton.mp hp with rfl
      rcases List.mem_singleton.mp hr with rfl; rfl
  exact ⟨⟨hcodes, hnodup, howner⟩, (C1_amended _ hcodes hnodup howner).1⟩

/-! ### C9 fixtures -/

def bancoXConfig : BankConfig := ⟨"Banco X", "banco_x", "https://example.test/cdt"⟩

def scenarioTable : GenericTable.PageTable :=
  ⟨[["Entidad", "Plazo", "Tasa E.A."], ["Banco X", "90 dias", "9,50%"]], ""⟩

def scenarioRecord : CDTRate :=
  ⟨"banco_x", "Banco X", 90, 19/2, none, none, "fijo", "vencimiento", "CDT", none,
    "https://example.test/cdt", ""⟩

/-- C9: a document with one table whose header row is
`["Entidad","Plazo","Tasa E.A."]` and whose single data row is
`["Banco X","90 dias","9,50%"]` yields, through the table extraction
strategy, exactly one record, with `term_days = 90` and `rate_ea = 9.50`
(and the scrape succeeds with exactly that record). -/
theorem C9_table_scenario :
    GenericTable.scrape bancoXConfig (some [scenarioTable]) =
      ⟨"banco_x", "Banco X", true, [scenarioRecord], none, "", 0⟩ := by
  have hterm : BaseScraper.parse_term "90 dias" = some 90 := by decide
  have hamount : BaseScraper.parse_amount "" = none := by decide
  have hrate : BaseScraper.parse_rate "9,50%" = some (19/2) := by
    norm_num +decide [BaseScraper.parse_rate, BaseScraper.cleanRate, round2]
  have hext : GenericTable.extract_tables [scenarioTable] = [scenarioTable] := by decide
  simp only [GenericTable.scrape, hext]
  norm_num +decide [GenericTable.parse_table, GenericTable.parse_row,
    GenericTable.findColLast, GenericTable.findColLastAux,
    GenericTable.getColText, GenericTable.getCellD, GenericTable.dedupRates,
    GenericTable.dedupRatesAux, GenericTable.dedupKey, scenarioTable, bancoXConfig,
    scenarioRecord, hterm, hrate, hamount, List.flatMap, List.flatten, List.filterMap]

/-! ### C2 fixtures -/

def exampleCard : MejorCDT.Card := ⟨some "Banco X", "Tasa: 12,50% E.A. desde $500.000"⟩

def exampleCardRecord : MejorCDT.MCDTRate :=
  ⟨"Banco X", "banco_x", 25/2, 360, none, none, "fijo", "u", "m", "t"⟩

lemma exampleCard_eval :
    MejorCDT.extract_rates_from_card exampleCard "u" "m" "t" = [exampleCardRecord] := by
  have htok : MejorCDT.findRateTokens "Tasa: 12,50% E.A. desde $500.000".data =
      [['1', '2', ',', '5', '0']] := by decide
  have hrate : MejorCDT.parse_rate ⟨['1', '2', ',', '5', '0']⟩ = some (25/2) := by
    norm_num +decide [MejorCDT.parse_rate, MejorCDT.removeEA, MejorCDT.removeEAAux, round2]
  norm_num +decide [MejorCDT.extract_rates_from_card, exampleCard, exampleCardRecord,
    htok, hrate, List.filterMap]

/-- C2 counterexample: a card-strategy match with no explicit term is
emitted at `term_days = 360`, not at the system's longest standard term
(`max STANDARD_TERMS = 720`): the claimed default term is wrong. -/
theorem C2_counterexample :
    (MejorCDT.extract_rates_from_card exampleCard "u" "m" "t").map
        (fun r => r.term_days) = [360] ∧
      STANDARD_TERMS.foldr max 0 = 720 ∧ (360 : ℕ) ≠ 720 := by
  refine ⟨?_, by decide, by decide⟩
  rw [exampleCard_eval]
  rfl

/-- C2 amended: every record emitted by the card strategy carries the
fixed default `term_days = 360` (a standard term, but not the longest one,
which is 720) and no amount bound (`min_amount = max_amount = none`). -/
theorem C2_amended (card : MejorCDT.Card) (u m t : String) (r : MejorCDT.MCDTRate)
    (h : r ∈ MejorCDT.extract_rates_from_card card u m t) :
    r.term_days = 360 ∧ r.min_amount = none ∧ r.max_amount = none := by
  obtain ⟨title, text⟩ := card
  unfold MejorCDT.extract_rates_from_card at h
  cases title with
  | none => cases h
  | some titleText =>
    simp only at h
    split_ifs at h with hlen
    · cases h
    · obtain ⟨tok, _, hf⟩ := List.mem_filterMap.mp h
      cases hp : MejorCDT.parse_rate ⟨tok⟩ with
      | none => rw [hp] at hf; cases hf
      | some rate =>
        rw [hp] at hf
        dsimp only at hf
        split_ifs at hf with hband
        cases Option.some.inj hf
        exact ⟨rfl, rfl, rfl⟩

/-- C2 amended, witness at the concrete card. -/
theorem C2_amended_witness :
    exampleCardRecord ∈ MejorCDT.extract_rates_from_card exampleCard "u" "m" "t" ∧
    (exampleCardRecord.term_days = 360 ∧ exampleCardRecord.min_amount = none ∧
      exampleCardRecord.max_amount = none) := by
  have hmem : exampleCardRecord ∈ MejorCDT.extract_rates_from_card exampleCard "u" "m" "t" := by
    rw [exampleCard_eval]
    exact List.mem_singleton.mpr rfl
  exact ⟨hmem, C2_amended _ _ _ _ _ hmem⟩

/-! ### C4 fixtures and helper lemmas -/

def cfg50 : BankConfig := ⟨"Banco Cincuenta", "banco50", "https://example.test/50"⟩

def table50 : GenericTable.PageTable := ⟨[["Plazo", "Tasa"], ["90 dias", "50%"]], ""⟩

def record50 : CDTRate :=
  ⟨"banco50", "Banco Cincuenta", 90, 50, none, none, "fijo", "vencimiento", "CDT", none,
    "https://example.test/50", ""⟩

lemma table50_parse_eval : GenericTable.parse_table cfg50 table50 = [record50] := by
  have hterm : BaseScraper.parse_term "90 dias" = some 90 := by decide
  have hamount : BaseScraper.parse_amount "" = none := by decide
  have hrate : BaseScraper.parse_rate "50%" = some 50 := by
    norm_num +decide [BaseScraper.parse_rate, BaseScraper.cleanRate, round2]
  norm_num +decide [GenericTable.parse_table, GenericTable.parse_row,
    GenericTable.findColLast, GenericTable.findColLastAux,
    GenericTable.getColText, GenericTable.getCellD, table50, cfg50, record50,
    hterm, hrate, hamount, List.filterMap]

lemma table50_scrape_eval :
    GenericTable.scrape cfg50 (some [table50]) =
      ⟨"banco50", "Banco Cincuenta", true, [record50], none, "", 0⟩ := by
  have hext : GenericTable.extract_tables [table50] = [table50] := by decide
  have hflat : ([table50].flatMap (GenericTable.parse_table cfg50)) = [record50] := by
    rw [List.flatMap_cons, List.flatMap_nil, table50_parse_eval, List.append_nil]
  simp only [GenericTable.scrape, hext, hflat]
  norm_num +decide [GenericTable.dedupRates, GenericTable.dedupRatesAux,
    GenericTable.dedupKey, cfg50, record50]

/-- C4 counterexample: the generic table path applies no 1–25 plausibility
band.  A table row with rate text `50%` produces a record with
`rate_ea = 50`, the scrape succeeds with it, and the record reaches the
merged set — it is not discarded before merge. -/
theorem C4_counterexample :
    record50 ∈ Orchestrator.get_all_rates
        [("banco50", GenericTable.scrape cfg50 (some [table50]))] ∧
      ¬(1 < record50.rate_ea ∧ record50.rate_ea < 25) := by
  constructor
  · rw [table50_scrape_eval]
    simp [Orchestrator.get_all_rates]
  · norm_num [record50]

lemma parse_row_fields {cfg : BankConfig} {tc rc ac : Option ℕ} {cells : List String}
    {r : CDTRate} (h : GenericTable.parse_row cfg tc rc ac cells = some r) :
    0 < r.term_days ∧ r.rate_ea ≠ 0 := by
  unfold GenericTable.parse_row at h
  by_cases hlen : cells.length < 2
  · rw [if_pos hlen] at h; cases h
  · rw [if_neg hlen] at h
    revert h
    cases BaseScraper.parse_term (GenericTable.getColText cells tc) with
    | none => intro h; cases h
    | some t =>
      cases BaseScraper.parse_rate (GenericTable.getColText cells rc) with
      | none => intro h; cases h
      | some rv =>
        intro h
        dsimp only at h
        by_cases hg : t ≠ 0 ∧ rv ≠ 0
        · rw [if_pos hg] at h
          cases Option.some.inj h
          exact ⟨Nat.pos_of_ne_zero hg.1, hg.2⟩
        · rw [if_neg hg] at h; cases h

lemma or360_pos (o : Option ℕ) : 0 < MejorCDT.or360 o := by
  cases o with
  | none => norm_num [MejorCDT.or360]
  | some t =>
    by_cases ht : t = 0
    · simp [MejorCDT.or360, ht]
    · simp only [MejorCDT.or360, if_neg ht]
      omega

lemma cellRate_fields {bn : String} {bc tc ac : Option ℕ} {headers : List (List Char)}
    {cells : List String} {u m s : String} {p : ℕ × String} {r : MejorCDT.MCDTRate}
    (h : MejorCDT.cellRate bn bc tc ac headers cells u m s p = some r) :
    0 < r.term_days ∧ 1 < r.rate_ea ∧ r.rate_ea < 25 := by
  unfold MejorCDT.cellRate at h
  by_cases hb : bc = some p.1
  · rw [if_pos hb] at h; cases h
  · rw [if_neg hb] at h
    revert h
    cases MejorCDT.parse_rate ⟨pyStrip p.2.data⟩ with
    | none => intro h; cases h
    | some rate =>
      intro h
      dsimp only at h
      by_cases hband : 1 < rate ∧ rate < 25
      · rw [if_pos hband] at h
        cases Option.some.inj h
        refine ⟨?_, hband.1, hband.2⟩
        cases tc <;> dsimp only <;> (try split_ifs) <;>
          first | exact or360_pos _ | norm_num
      · rw [if_neg hband] at h; cases h

lemma rowRates_fields {bc tc ac : Option ℕ} {headers : List (List Char)}
    {cells : List String} {u m s : String} {r : MejorCDT.MCDTRate}
    (h : r ∈ MejorCDT.rowRates bc tc ac headers cells u m s) :
    0 < r.term_days ∧ 1 < r.rate_ea ∧ r.rate_ea < 25 := by
  unfold MejorCDT.rowRates at h
  by_cases h1 : cells.length < 2
  · rw [if_pos h1] at h; cases h
  · rw [if_neg h1] at h
    by_cases h2 : (MejorCDT.rowBankName bc cells).length < 3
    · rw [if_pos h2] at h; cases h
    · rw [if_neg h2] at h
      obtain ⟨p, _, hp⟩ := List.mem_filterMap.mp h
      exact cellRate_fields hp

/-- C4 amended: what the extraction paths actually enforce before merge.
The generic table path (`GenericTableScraper._parse_table`) only requires
term and rate to be truthy: every emitted record has `term_days > 0` and
`rate_ea ≠ 0`, but no 1–25 plausibility band is applied there (see the
counterexample).  The consolidator table path
(`MejorCDTScraper._extract_rates_from_table`) does enforce the band: every
record it emits has `term_days > 0` and `1 < rate_ea < 25`. -/
theorem C4_amended :
    (∀ cfg t r, r ∈ GenericTable.parse_table cfg t →
      0 < r.term_days ∧ r.rate_ea ≠ 0) ∧
    (∀ tbl u m s r, r ∈ MejorCDT.extract_rates_from_table tbl u m s →
      0 < r.term_days ∧ 1 < r.rate_ea ∧ r.rate_ea < 25) := by
  constructor
  · intro cfg t r hr
    unfold GenericTable.parse_table at hr
    cases htr : t.rows with
    | nil => rw [htr] at hr; cases hr
    | cons header dataRows =>
      rw [htr] at hr
      dsimp only at hr
      obtain ⟨cells, _, hcell⟩ := List.mem_filterMap.mp hr
      exact parse_row_fields hcell
  · intro tbl u m s r hr
    unfold MejorCDT.extract_rates_from_table at hr
    cases tbl with
    | nil => cases hr
    | cons header dataRows =>
      dsimp only at hr
      split_ifs at hr with hd
      · cases hr
      · obtain ⟨cells, _, hcells⟩ := List.mem_flatMap.mp hr
        exact rowRates_fields hcells

def mcdtTable : List (List String) :=
  [["Banco", "Plazo", "Tasa"], ["Banco Uno", "90 dias", "12,50%"]]

def mcdtRecord : MejorCDT.MCDTRate :=
  ⟨"Banco Uno", "banco_uno", 25/2, 90, none, none, "fijo", "u", "m", "t"⟩

lemma mcdtTable_eval :
    MejorCDT.extract_rates_from_table mcdtTable "u" "m" "t" = [mcdtRecord] := by
  have hterm : MejorCDT.parse_term "90 dias" = some 90 := by decide
  have hr1 : MejorCDT.parse_rate ⟨['9', '0', ' ', 'd', 'i', 'a', 's']⟩ = none := by decide
  have hr2 : MejorCDT.parse_rate ⟨['1', '2', ',', '5', '0', '%']⟩ = some (25/2) := by
    norm_num +decide [MejorCDT.parse_rate, MejorCDT.removeEA, MejorCDT.removeEAAux, round2]
  norm_num +decide [MejorCDT.extract_rates_from_table, MejorCDT.classifyCols,
    MejorCDT.classifyColsAux, MejorCDT.rowRates, MejorCDT.rowBankName,
    MejorCDT.cellRate, MejorCDT.enumAux, MejorCDT.or360, GenericTable.getCellD,
    mcdtTable, mcdtRecord, hterm, hr1, hr2, List.flatMap, List.flatten,
    List.filterMap]

/-- C4 amended, witness: a concrete generic-path record (term 90, rate 50,
nonzero but out of band) and a concrete consolidator-path record (term 90,
rate 12.5, inside the band). -/
theorem C4_amended_witness :
    (record50 ∈ GenericTable.parse_table cfg50 table50 ∧
      (0 < record50.term_days ∧ record50.rate_ea ≠ 0)) ∧
    (mcdtRecord ∈ MejorCDT.extract_rates_from_table mcdtTable "u" "m" "t" ∧
      (0 < mcdtRecord.term_days ∧ 1 < mcdtRecord.rate_ea ∧ mcdtRecord.rate_ea < 25)) := by
  have h1 : record50 ∈ GenericTable.parse_table cfg50 table50 := by
    rw [table50_parse_eval]
    exact List.mem_singleton.mpr rfl
  have h2 : mcdtRecord ∈ MejorCDT.extract_rates_from_table mcdtTable "u" "m" "t" := by
    rw [mcdtTable_eval]
    exact List.mem_singleton.mpr rfl
  exact ⟨⟨h1, C4_amended.1 _ _ _ h1⟩, ⟨h2, C4_amended.2 _ _ _ _ _ h2⟩⟩

/-! ### C3: idempotence of the rate normalizer -/

@[simp] lemma data_append (a b : String) : (a ++ b).data = a.data ++ b.data := rfl

/-- C3 counterexample: re-parsing the canonical string fails when the
first parse returns a value `≤ 1`.  `parse_rate "0.005" = 0.5`, its
canonical string is `"0.5"`, and `parse_rate "0.5%" = 50.0 ≠ 0.5` — the
`> 1` percentage heuristic multiplies small re-parsed values by 100
again. -/
theorem C3_counterexample :
    BaseScraper.parse_rate "0.005" = some (1/2) ∧
    BaseScraper.parse_rate (pyFloatStr2 (1/2) ++ "%") = some 50 ∧
    ¬((50 : ℚ) = 1/2) := by
  refine ⟨?_, ?_, by norm_num⟩
  · norm_num +decide [BaseScraper.parse_rate, BaseScraper.cleanRate, round2]
  · have hstr : pyFloatStr2 (1/2) = ⟨['0', '.', '5']⟩ := by
      norm_num +decide [pyFloatStr2, render2Nat, natToChars, fracChars, Rat.num_ofNat]
    rw [hstr]
    norm_num +decide [BaseScraper.parse_rate, BaseScraper.cleanRate, round2]

/-- C3 amended: idempotence holds on the percentage side of the
heuristic — for every input on which `parse_rate` succeeds with a value
greater than 1 (every genuine percentage, and below 10^16 so that the
canonical float string is in positional notation), re-parsing the
canonical string with a `%` suffix returns the same value. -/
theorem C3_amended (x : String) (r : ℚ) (hparse : BaseScraper.parse_rate x = some r)
    (hgt : 1 < r) (_hbound : r < 10 ^ 16) :
    BaseScraper.parse_rate (pyFloatStr2 r ++ "%") = some r := by
  have hden : (r * 100).den = 1 := parse_rate_hundredths hparse
  have hnum_pos : 0 < (r * 100).num := by
    have h0 : (0 : ℚ) < r * 100 := by linarith
    exact Rat.num_pos.mpr h0
  have hq : ((r * 100).num : ℚ) = r * 100 := by
    conv_rhs => rw [← Rat.num_div_den (r * 100)]
    rw [hden]
    simp
  have hmq : (((r * 100).num.natAbs : ℕ) : ℚ) = r * 100 := by
    have h2 : (((r * 100).num.natAbs : ℕ) : ℤ) = (r * 100).num :=
      Int.natAbs_of_nonneg (le_of_lt hnum_pos)
    have h3 : (((r * 100).num.natAbs : ℕ) : ℚ) = ((r * 100).num : ℚ) := by
      rw [Int.cast_natAbs, abs_of_pos]
      exact_mod_cast hnum_pos
    rw [h3, hq]
  have hstr : pyFloatStr2 r = ⟨render2Nat (r * 100).num.natAbs⟩ := by
    unfold pyFloatStr2
    rw [if_neg (not_lt.mpr (le_of_lt hnum_pos))]
  rw [hstr]
  have hdata : (((⟨render2Nat (r * 100).num.natAbs⟩ : String)) ++ "%").data =
      render2Nat (r * 100).num.natAbs ++ ['%'] := rfl
  rw [BaseScraper.parse_rate, hdata]
  have hne : render2Nat (r * 100).num.natAbs ++ ['%'] ≠ [] := by simp
  rw [if_neg hne, cleanRate_render_pct, parseDecimal_render2Nat]
  have hv : (((r * 100).num.natAbs : ℕ) : ℚ) / 100 = r := by
    rw [hmq]
    field_simp
  rw [hv]
  have hgt' : 1 < r := hgt
  simp only [if_pos hgt']
  have hdiv : r / 100 * 100 = r := by field_simp
  rw [hdiv, round2_eq_self hden]

/-- C3 amended, witness: `parse_rate "9,50%" = 9.5 > 1`, and re-parsing
`str(9.5) + "%"` gives 9.5 again. -/
theorem C3_amended_witness :
    (BaseScraper.parse_rate "9,50%" = some (19/2) ∧ (1 : ℚ) < 19/2 ∧ (19/2 : ℚ) < 10 ^ 16) ∧
    BaseScraper.parse_rate (pyFloatStr2 (19/2) ++ "%") = some (19/2) := by
  have hparse : BaseScraper.parse_rate "9,50%" = some (19/2) := by
    norm_num +decide [BaseScraper.parse_rate, BaseScraper.cleanRate, round2]
  exact ⟨⟨hparse, by norm_num, by norm_num⟩,
    C3_amended "9,50%" (19/2) hparse (by norm_num) (by norm_num)⟩
